import Mathlib

/-!
Verification of the pull-request-description generator
(`generate_pull_request_description.py`).

The Python source is shallowly embedded below.  Python strings are modelled
as `String` / `List Char`, Python dicts as insertion-ordered association
lists (`alookup` / `aset` reproduce `d[k]` / `d[k] = v`), Python sets of
strings as `List String` used only through membership, and a raised
`KeyError` that no handler catches as `Except.error ()`.  The integer-valued
`BREAKING CHANGE COUNT` key that the source stores inside the same dict as
the headings is modelled as a separate `count` field of `CategorisedStore`;
`dict.pop` of that key becomes reading the field and setting it to `none`.
Only the GitHub commit-message path of `generate` is embedded (the path
taken when a current pull request is available, e.g. with the
PULL_REQUEST_START stop point); the git-log adapter is out of scope.
-/

/-! ### Character and string primitives mirroring Python's str methods -/

/-- Python `s.startswith(sep)` on explicit character lists. -/
def leadsWith : List Char → List Char → Bool
  | [], _ => true
  | _ :: _, [] => false
  | a :: as, b :: bs => if a = b then leadsWith as bs else false

/-- Python `sep in s` (substring occurrence) on character lists. -/
def occursIn (sep : List Char) : List Char → Bool
  | [] => sep.isEmpty
  | c :: rest => leadsWith sep (c :: rest) || occursIn sep rest

/-- Python `needle in hay` for strings. -/
def hasSubstr (hay needle : String) : Bool :=
  occursIn needle.data hay.data

/-- Python `str.split(sep)` with an explicit recursion bound (the bound is
instantiated with the length of the string, which always suffices); the
bound only exists to make the definition structurally recursive. -/
def splitOnB (sep : List Char) : Nat → List Char → List (List Char)
  | _, [] => [[]]
  | 0, s => [s]
  | Nat.succ b, c :: rest =>
    if leadsWith sep (c :: rest) = true ∧ sep ≠ [] then
      [] :: splitOnB sep b ((c :: rest).drop sep.length)
    else
      match splitOnB sep b rest with
      | [] => [[c]]
      | t :: ts => (c :: t) :: ts

/-- Python `s.split(sep)` for a non-empty separator. -/
def splitOnL (sep s : List Char) : List (List Char) :=
  splitOnB sep s.length s

/-- Python `sep.join(parts)` on character lists. -/
def joinSep (sep : List Char) : List (List Char) → List Char
  | [] => []
  | [p] => p
  | p :: q :: ps => p ++ sep ++ joinSep sep (q :: ps)

/-- Python `s.strip(cs)`: remove the given characters from both ends. -/
def stripChars (cs : List Char) (l : List Char) : List Char :=
  (((l.dropWhile fun c => c ∈ cs).reverse.dropWhile fun c => c ∈ cs).reverse)

/-- Python's default `str.strip()` whitespace set (ASCII part). -/
def isPySpace (c : Char) : Bool :=
  c = ' ' || c = '\t' || c = '\n' || c = '\r' || c = '\x0b' || c = '\x0c'

/-- Python `s.strip()` on character lists. -/
def stripWS (l : List Char) : List Char :=
  ((l.dropWhile isPySpace).reverse.dropWhile isPySpace).reverse

/-- Python `s.lower()` (ASCII case folding, the only case the inputs use). -/
def lowerStr (s : String) : String :=
  ⟨s.data.map Char.toLower⟩

/-- Python `s[:1].upper() + s[1:]` (upper-case the first character). -/
def upperFirst (s : String) : String :=
  match s.data with
  | [] => ""
  | c :: rest => ⟨c.toUpper :: rest⟩

/-- Helper for Python `str.title()`: the boolean records whether the previous
character was alphabetic (i.e. cased). -/
def titleAux : Bool → List Char → List Char
  | _, [] => []
  | prevAlpha, c :: rest =>
    if c.isAlpha then
      (if prevAlpha then c.toLower else c.toUpper) :: titleAux true rest
    else c :: titleAux false rest

/-- Python `re.sub(r"[-_]+", " ", s)`: collapse runs of hyphens/underscores
into a single space. -/
def collapseDU : List Char → List Char
  | [] => []
  | [c] => if c = '-' || c = '_' then [' '] else [c]
  | c :: d :: rest =>
    if c = '-' || c = '_' then
      if d = '-' || d = '_' then collapseDU (d :: rest)
      else ' ' :: collapseDU (d :: rest)
    else c :: collapseDU (d :: rest)

/-- Formatting of a scope subheading: `re.sub(r"[-_]+", " ", scope).title()`. -/
def formatScope (scope : String) : String :=
  ⟨titleAux false (collapseDU scope.data)⟩

/-- Python string lexicographic order on code points (used by `sorted`). -/
def charListLt : List Char → List Char → Bool
  | [], [] => false
  | [], _ :: _ => true
  | _ :: _, [] => false
  | a :: as, b :: bs =>
    if a.val < b.val then true else if b.val < a.val then false else charListLt as bs

/-- Python `sorted(d.items())` for string-keyed association lists (the keys
of a dict are distinct, so comparing keys alone reproduces tuple order). -/
def insertSorted (x : String × α) : List (String × α) → List (String × α)
  | [] => [x]
  | y :: ys =>
    if charListLt x.1.data y.1.data then x :: y :: ys else y :: insertSorted x ys

/-- Sort an association list by key, as Python `sorted(d.items())` does. -/
def sortByKey : List (String × α) → List (String × α)
  | [] => []
  | x :: xs => insertSorted x (sortByKey xs)

/-! ### Insertion-ordered dictionaries (Python dict semantics) -/

/-- Python `d[k]` as an option: first (unique) binding of the key. -/
def alookup : List (String × α) → String → Option α
  | [], _ => none
  | (k, v) :: rest, key => if k = key then some v else alookup rest key

/-- Python `d[k] = v`: overwrite in place if the key exists, else append. -/
def aset : List (String × α) → String → α → List (String × α)
  | [], key, v => [(key, v)]
  | (k, w) :: rest, key, v =>
    if k = key then (k, v) :: rest else (k, w) :: aset rest key v

/-! ### Constants of the source module -/

def BREAKING_CHANGE_INDICATOR : String := "💥 **BREAKING CHANGE:** "

def UPGRADE_INSTRUCTIONS_HEADER : String := "# 🔄 Upgrade instructions"

def OTHER_SECTION_HEADING : String := "### 🔀 Other"

def UNCATEGORISED_SECTION_HEADING : String := "### ❓ Uncategorised!"

def BREAKING_CHANGE_COUNT_KEY : String := "BREAKING CHANGE COUNT"

def AUTO_GENERATION_START_INDICATOR : String := "<!--- START AUTOGENERATED NOTES --->"

def AUTO_GENERATION_END_INDICATOR : String := "<!--- END AUTOGENERATED NOTES --->"

def SKIP_INDICATOR : String := "<!--- SKIP AUTOGENERATED NOTES --->"

/-- Default `COMMIT_CODES_TO_HEADINGS_MAPPING` of the source (insertion
order preserved). -/
def COMMIT_CODES_TO_HEADINGS_MAPPING : List (String × String) :=
  [("feat", "## ✨ New Features"),
   ("fix", "## 🐛 Bug Fixes"),
   ("docs", "## 📚 Documentation"),
   ("style", "## 💅 Style"),
   ("refactor", "## ♻️ Refactoring"),
   ("perf", "## ⚡️ Performance Improvements"),
   ("test", "## 🧪 Tests"),
   ("build", "## 🏗️ Build System"),
   ("ci", "## 🤖 CI"),
   ("chore", "## 🧹 Chores"),
   ("FEA", "## ✨ New features"),
   ("ENH", "## 🚀 Enhancements"),
   ("FIX", "## 🐛 Fixes"),
   ("OPS", "## 🔧 Operations"),
   ("DEP", "## 📦 Dependencies"),
   ("REF", "## ♻️ Refactoring"),
   ("TST", "## 🧪 Testing"),
   ("MRG", "## 🔀 Other"),
   ("REV", "## ⏮️ Reversions"),
   ("CHO", "## 🧹 Chores"),
   ("STY", "## 💅 Style"),
   ("WIP", "## 🚧 Other"),
   ("DOC", "## 📚 Other")]

/-- Membership test of `CONVENTIONAL_COMMIT_BREAKING_CHANGE_INDICATORS`:
`any(indicator in body for indicator in {"BREAKING-CHANGE", "BREAKING CHANGE"})`. -/
def hasBreakingChange (body : String) : Bool :=
  hasSubstr body "BREAKING-CHANGE" || hasSubstr body "BREAKING CHANGE"

/-! ### Commit parsing (`_parse_commit_messages_from_github`) -/

/-- One parsed commit tuple `(commit_type, scope, message, body)`; the field
names follow the unpacking `for code, scope, header, body in parsed_commits`
used by the categoriser. -/
structure ParsedCommit where
  code : String
  scope : Option String
  header : String
  body : String
deriving DecidableEq, Repr

/-- Match of `CONVENTIONAL_COMMIT_PATTERN`, the regular expression
`^(?P<type>[a-zA-Z]+)(?:\((?P<scope>[^)]+)\))?:`.  The type token is the
maximal alphabetic run (a shorter run would be followed by a letter, which
can match neither `(` nor `:`, so greedy matching with backtracking reduces
to this); the scope, when parenthesised, runs to the first `)`. -/
def conventionalMatch (header : List Char) : Option (List Char × Option (List Char)) :=
  let (ty, rest) := header.span (fun c => c.isAlpha)
  if ty = [] then none
  else
    match rest with
    | ':' :: _ => some (ty, none)
    | '(' :: rest2 =>
      let (sc, rest3) := rest2.span (fun c => c ≠ ')')
      if sc = [] then none
      else
        match rest3 with
        | ')' :: ':' :: _ => some (ty, some sc)
        | _ => none
    | _ => none

/-- Search of `COMMIT_REF_MERGE_PATTERN` (`Merge [0-9a-f]+ into [0-9a-f]+`)
anchored at the head of the list. -/
def mergeRefAt (l : List Char) : Bool :=
  if leadsWith "Merge ".data l then
    let r1 := l.drop 6
    let (h1, r2) := r1.span fun c => c.isDigit || ('a' ≤ c && c ≤ 'f')
    if h1 ≠ [] && leadsWith " into ".data r2 then
      let r3 := r2.drop 6
      ((r3.span fun c => c.isDigit || ('a' ≤ c && c ≤ 'f')).1 ≠ [])
    else false
  else false

/-- Python `re.search` of the merge-ref pattern: try every start position. -/
def mergeRefSearch : List Char → Bool
  | [] => false
  | c :: rest => mergeRefAt (c :: rest) || mergeRefSearch rest

/-- Python `header[header.find(":") + 1:]`: everything after the first colon
(the whole string when there is no colon, since `find` returns -1). -/
def afterFirstColon (l : List Char) : List Char :=
  match splitOnL [':'] l with
  | [] => l
  | [_] => l
  | _ :: rest => joinSep [':'] rest

/-- Embedding of `_parse_commit_messages_from_github`: each commit message is
split into a first line (header) and the rest (body); conventional-commit
headers become `ParsedCommit`s, merge-ref lines are discarded, and the rest
are collected (stripped) as unparsed commits. -/
def parseCommitMessagesFromGithub (messages : List String) :
    List ParsedCommit × List String :=
  messages.foldl
    (fun acc message =>
      let parts := splitOnL ['\n'] message.data
      let header := parts.headD []
      let body := joinSep ['\n'] parts.tail
      match conventionalMatch header with
      | some (ty, sc) =>
        (acc.1 ++ [{ code := ⟨stripWS ty⟩,
                     scope := sc.map (fun l => ⟨l⟩),
                     header := ⟨stripWS (afterFirstColon header)⟩,
                     body := ⟨stripWS body⟩ }], acc.2)
      | none =>
        if mergeRefSearch header then acc
        else (acc.1, acc.2 ++ [⟨stripWS header⟩]))
    ([], [])

/-! ### Categorisation (`_categorise_commit_messages`) -/

/-- Nested dict `heading -> scope -> list of notes` (also the shape of the
lowercase-note tracker, whose leaves are sets modelled as lists used through
membership only). -/
abbrev Sections := List (String × List (String × List String))

/-- Mutable state of `_categorise_commit_messages` while it folds over the
commits: the categorised notes, the duplicate tracker, the running breaking
change count and the accumulated upgrade-instruction blocks. -/
structure CatState where
  sections : Sections
  tracker : Sections
  count : Nat
  upgrades : List String
deriving Repr

/-- Result value of the categoriser as seen by `_build_release_notes`: the
heading dict together with the `BREAKING CHANGE COUNT` entry (present after
categorisation, removed — `none` — once `pop` has taken it). -/
structure CategorisedStore where
  sections : Sections
  count : Option Nat
deriving Repr

/-- Line 336: `effective_scope = scope if scope else "Miscellaneous"`
(Python truthiness: `None` and the empty string both fall back). -/
def effScope (c : ParsedCommit) : String :=
  match c.scope with
  | none => "Miscellaneous"
  | some s => if s = "" then "Miscellaneous" else s

/-- Lines 346-364: the rendered note, prefixed with the breaking-change
indicator when the body contains a breaking-change marker. -/
def renderNote (c : ParsedCommit) : String :=
  if hasBreakingChange c.body then BREAKING_CHANGE_INDICATOR ++ c.header else c.header

/-- Lines 355-362: the collapsible upgrade-instruction block built for a
breaking change; the instruction body drops everything up to and including
the first colon of the commit body and strips the remainder. -/
def upgradeBlock (effectiveScope header body : String) : String :=
  "<details>\n<summary>💥 <b>(" ++ effectiveScope ++ ") " ++ header ++
    "</b></summary>\n\n" ++
    (⟨stripWS (joinSep [':'] ((splitOnL [':'] body.data).tail))⟩ : String) ++
    "\n</details>"

/-- Lines 375-396, the `except KeyError` handler: commits whose type is not
in the mapping are added (with case-insensitive deduplication) to the
`"### 🔀 Other"` heading — but every dict subscript inside the handler that
misses raises a KeyError that nothing catches, so the whole run fails
(`Except.error`) whenever `OTHER_SECTION_HEADING` is not a key of the
categorised dict. -/
def otherBranch (st : CatState) (header : String) : Except Unit CatState :=
  match alookup st.sections OTHER_SECTION_HEADING with
  | none => Except.error ()
  | some hd =>
    match
      (if (alookup hd "Miscellaneous").isNone then
        match alookup st.tracker OTHER_SECTION_HEADING with
        | none => none
        | some td =>
          some { st with
            sections := aset st.sections OTHER_SECTION_HEADING (aset hd "Miscellaneous" [])
            tracker := aset st.tracker OTHER_SECTION_HEADING (aset td "Miscellaneous" []) }
      else some st) with
    | none => Except.error ()
    | some st1 =>
      match alookup st1.tracker OTHER_SECTION_HEADING with
      | none => Except.error ()
      | some td1 =>
        match alookup td1 "Miscellaneous" with
        | none => Except.error ()
        | some seen =>
          if lowerStr header ∈ seen then Except.ok st1
          else
            match alookup st1.sections OTHER_SECTION_HEADING with
            | none => Except.error ()
            | some hd1 =>
              match alookup hd1 "Miscellaneous" with
              | none => Except.error ()
              | some bucket =>
                Except.ok { st1 with
                  sections := aset st1.sections OTHER_SECTION_HEADING
                    (aset hd1 "Miscellaneous" (bucket ++ [header]))
                  tracker := aset st1.tracker OTHER_SECTION_HEADING
                    (aset td1 "Miscellaneous" (seen ++ [lowerStr header])) }

/-- Lines 346-364: the breaking-change bookkeeping for one commit —
increment the counter and append the upgrade-instruction block when the body
carries a breaking-change marker, otherwise leave the state alone. -/
def breakingUpdate (st : CatState) (effectiveScope : String) (c : ParsedCommit) :
    CatState :=
  if hasBreakingChange c.body then
    { st with
      count := st.count + 1
      upgrades := st.upgrades ++ [upgradeBlock effectiveScope c.header c.body] }
  else st

/-- Lines 366-373: the case-insensitive duplicate check and append.  Any
dict subscript that misses raises a KeyError that lands in the `except`
handler (`otherBranch`) with the mutations made so far preserved. -/
def dedupInsert (st : CatState) (heading effectiveScope note header : String) :
    Except Unit CatState :=
  match alookup st.tracker heading with
  | none => otherBranch st header
  | some td2 =>
    match alookup td2 effectiveScope with
    | none => otherBranch st header
    | some seen =>
      if lowerStr note ∈ seen then Except.ok st
      else
        match alookup st.sections heading with
        | none => otherBranch st header
        | some hd2 =>
          match alookup hd2 effectiveScope with
          | none => otherBranch st header
          | some bucket =>
            Except.ok { st with
              sections := aset st.sections heading
                (aset hd2 effectiveScope (bucket ++ [note]))
              tracker := aset st.tracker heading
                (aset td2 effectiveScope (seen ++ [lowerStr note])) }

/-- Lines 346-373, the remainder of the `try` body once the heading has been
resolved and the scope bucket initialised. -/
def processParsedRest (st : CatState) (heading effectiveScope : String)
    (c : ParsedCommit) : Except Unit CatState :=
  dedupInsert (breakingUpdate st effectiveScope c) heading effectiveScope
    (renderNote c) c.header

/-- Lines 333-396: processing of a single parsed commit.  A missing mapping
entry (line 339) and every other KeyError raised inside the `try` body
divert to the `except` handler (`otherBranch`), carrying the state mutated
so far. -/
def processParsed (mapping : List (String × String)) (st : CatState)
    (c : ParsedCommit) : Except Unit CatState :=
  match alookup mapping c.code with
  | none => otherBranch st c.header
  | some heading =>
    match alookup st.sections heading with
    | none => otherBranch st c.header
    | some hd =>
      if (alookup hd (effScope c)).isNone then
        match alookup st.tracker heading with
        | none =>
          otherBranch
            { st with sections := aset st.sections heading (aset hd (effScope c) []) }
            c.header
        | some td =>
          processParsedRest
            { st with
              sections := aset st.sections heading (aset hd (effScope c) [])
              tracker := aset st.tracker heading (aset td (effScope c) []) }
            heading (effScope c) c
      else processParsedRest st heading (effScope c) c

/-- Insertion of one unparsed commit (lines 409-422); `none` models a
KeyError, which the surrounding `try` swallows, ending the whole loop. -/
def uncatInsert (st : CatState) (commit : String) : Option CatState :=
  match alookup st.sections UNCATEGORISED_SECTION_HEADING,
        alookup st.tracker UNCATEGORISED_SECTION_HEADING with
  | some hd, some td =>
    match alookup td "Miscellaneous" with
    | none => none
    | some seen =>
      if lowerStr commit ∈ seen then some st
      else
        match alookup hd "Miscellaneous" with
        | none => none
        | some bucket =>
          some { st with
            sections := aset st.sections UNCATEGORISED_SECTION_HEADING
              (aset hd "Miscellaneous" (bucket ++ [commit]))
            tracker := aset st.tracker UNCATEGORISED_SECTION_HEADING
              (aset td "Miscellaneous" (seen ++ [lowerStr commit])) }
  | _, _ => none

/-- Loop over the unparsed commits; a KeyError aborts the loop, keeping the
state accumulated so far (the exception is caught at line 423). -/
def uncatLoop (st : CatState) : List String → CatState
  | [] => st
  | c :: rest =>
    match uncatInsert st c with
    | none => st
    | some st1 => uncatLoop st1 rest

/-- Lines 398-426: the whole uncategorised-commits phase, wrapped in
`try ... except KeyError` — with the default mapping the very first
subscript `categorised_commits[UNCATEGORISED_SECTION_HEADING]` raises, the
warning is logged and every unparsed commit is silently dropped. -/
def uncatPhase (st : CatState) (unparsedCommits : List String) : CatState :=
  match alookup st.sections UNCATEGORISED_SECTION_HEADING with
  | none => st
  | some hd =>
    if (alookup hd "Miscellaneous").isNone then
      match alookup st.tracker UNCATEGORISED_SECTION_HEADING with
      | none =>
        { st with
          sections := aset st.sections UNCATEGORISED_SECTION_HEADING
            (aset hd "Miscellaneous" []) }
      | some td =>
        uncatLoop
          { st with
            sections := aset st.sections UNCATEGORISED_SECTION_HEADING
              (aset hd "Miscellaneous" [])
            tracker := aset st.tracker UNCATEGORISED_SECTION_HEADING
              (aset td "Miscellaneous" []) }
          unparsedCommits
    else uncatLoop st unparsedCommits

/-- Lines 319-322: `{heading: {} for heading in mapping.values()}` (dict
comprehension: first-occurrence position, duplicate values collapse). -/
def initSections (mapping : List (String × String)) : Sections :=
  mapping.foldl (fun acc p => aset acc p.2 []) []

/-- Lines 325-329: the tracker starts from the same comprehension and then
explicitly receives `"Miscellaneous"` sets under the Other and Uncategorised
headings. -/
def initTracker (mapping : List (String × String)) : Sections :=
  aset
    (aset (mapping.foldl (fun acc p => aset acc p.2 []) [])
      OTHER_SECTION_HEADING [("Miscellaneous", [])])
    UNCATEGORISED_SECTION_HEADING [("Miscellaneous", [])]

/-- Embedding of `_categorise_commit_messages`. -/
def categoriseCommitMessages (mapping : List (String × String))
    (parsedCommits : List ParsedCommit) (unparsedCommits : List String) :
    Except Unit (CategorisedStore × List String) := do
  let st0 : CatState :=
    { sections := initSections mapping, tracker := initTracker mapping,
      count := 0, upgrades := [] }
  let st ← parsedCommits.foldlM (processParsed mapping) st0
  let st2 := uncatPhase st unparsedCommits
  return ({ sections := st2.sections, count := some st2.count }, st2.upgrades)

/-! ### Document building (`_build_release_notes` and helpers) -/

/-- Match of the ticket pattern `[a-zA-Z]{2,6}-\d+` anchored at the head of
the list: the alphabetic run must end exactly at a hyphen (greedy matching
with backtracking reduces to this, since a shorter run is followed by a
letter), have length 2..6, and be followed by at least one digit. -/
def ticketMatchAt (l : List Char) : Option (List Char) :=
  if 2 ≤ (l.takeWhile (fun c => c.isAlpha)).length ∧
      (l.takeWhile (fun c => c.isAlpha)).length ≤ 6 then
    match l.dropWhile (fun c => c.isAlpha) with
    | '-' :: rest2 =>
      if rest2.takeWhile (fun c => c.isDigit) = [] then none
      else some (l.takeWhile (fun c => c.isAlpha) ++ '-' :: rest2.takeWhile (fun c => c.isDigit))
    | _ => none
  else none

/-- Python `re.findall` for the ticket pattern: scan left to right, emitting
non-overlapping matches; the `Nat` bound (instantiated with the length) only
makes the recursion structural. -/
def ticketFindAllB : Nat → List Char → List (List Char)
  | _, [] => []
  | 0, _ => []
  | Nat.succ b, c :: rest =>
    match ticketMatchAt (c :: rest) with
    | some m => m :: ticketFindAllB b ((c :: rest).drop m.length)
    | none => ticketFindAllB b rest

/-- All ticket matches of a character list, left to right. -/
def ticketFindAll (l : List Char) : List (List Char) :=
  ticketFindAllB l.length l

/-- Python `dict.fromkeys(xs).keys()`: first-occurrence deduplication that
preserves order. -/
def firstDedupAux (seen : List String) : List String → List String
  | [] => []
  | x :: xs =>
    if x ∈ seen then firstDedupAux seen xs else x :: firstDedupAux (x :: seen) xs

/-- Lines 480-494: collect every ticket reference appearing in any note,
iterating headings in dict order and scopes in sorted order. -/
def collectTickets (sections : Sections) : List String :=
  sections.foldl
    (fun acc p =>
      (sortByKey p.2).foldl
        (fun acc2 q =>
          if q.2 = [] then acc2
          else q.2.foldl
            (fun acc3 note => acc3 ++ (ticketFindAll note.data).map (fun m => (⟨m⟩ : String)))
            acc2)
        acc)
    []

/-- Embedding of `_create_breaking_change_warning`. -/
def createBreakingChangeWarning (breakingChangeCount : Nat) : String :=
  if breakingChangeCount = 1 then
    "**IMPORTANT:** There is 1 breaking change.\n\n"
  else
    "**IMPORTANT:** There are " ++ toString breakingChangeCount ++ " breaking changes.\n\n"

/-- Embedding of `_create_contents_subsection`: the heading line, then for
each non-empty scope in sorted order a formatted scope subheading and one
bullet line per note — the bullet is the literal string " - " (the
configured list-item symbol is not consulted here). -/
def createContentsSubsection (heading : String)
    (scopedNotes : List (String × List String)) : String :=
  (sortByKey scopedNotes).foldl
    (fun acc q =>
      if q.2 = [] then acc
      else
        acc ++ "### " ++ formatScope q.1 ++ "\n" ++
          String.intercalate "\n" (q.2.map fun note => " - " ++ upperFirst note) ++ "\n\n")
    (heading ++ "\n")

/-- Lines 498-504: the optional "# Tickets" block (the only place the
configured list-item symbol is used). -/
def contentsTicketsPart (listItemSymbol : String) (sections : Sections) : String :=
  if collectTickets sections ≠ [] then
    "# Tickets\n" ++
      String.intercalate "\n"
        ((firstDedupAux [] (collectTickets sections)).map
          fun t => listItemSymbol ++ " " ++ t)
  else ""

/-- Lines 512-528: one step of the loop over the regular headings — special
headings, empty dicts and all-empty headings are skipped. -/
def contentsSubsectionStep (acc : String)
    (p : String × List (String × List String)) : String :=
  if p.1 = OTHER_SECTION_HEADING ∨ p.1 = UNCATEGORISED_SECTION_HEADING ∨
      p.1 = BREAKING_CHANGE_COUNT_KEY ∨ p.2 = [] ∨
      (p.2.any fun q => !q.2.isEmpty) = false then acc
  else acc ++ createContentsSubsection p.1 p.2

/-- Lines 530-538: one step of the final loop over the Other and
Uncategorised headings, rendered only when they hold actual notes. -/
def contentsSpecialStep (sections : Sections) (acc : String) (h : String) : String :=
  if (alookup sections h).getD [] ≠ [] ∧
      (((alookup sections h).getD []).any fun q => !q.2.isEmpty) = true then
    acc ++ createContentsSubsection h ((alookup sections h).getD [])
  else acc

/-- Embedding of `_create_contents_section` (the `self.header` line is
commented out in the source and therefore absent here; the list-item symbol
is only used for the tickets block). -/
def createContentsSection (listItemSymbol : String) (sections : Sections)
    (breakingChangeCount : Nat) : String :=
  [OTHER_SECTION_HEADING, UNCATEGORISED_SECTION_HEADING].foldl
    (contentsSpecialStep sections)
    (sections.foldl contentsSubsectionStep
      (if breakingChangeCount ≠ 0 then
        contentsTicketsPart listItemSymbol sections ++
          createBreakingChangeWarning breakingChangeCount
      else contentsTicketsPart listItemSymbol sections))

/-- Embedding of `_create_breaking_change_upgrade_section`. -/
def createBreakingChangeUpgradeSection (upgradeInstructions : List String) : String :=
  String.intercalate "\n"
    [UPGRADE_INSTRUCTIONS_HEADER, String.intercalate "\n\n" upgradeInstructions] ++ "\n\n"

/-- Embedding of `_build_release_notes`.  The source starts with
`categorised_commit_messages.pop(BREAKING_CHANGE_COUNT_KEY)`: this mutates
the store (the returned store has `count := none`) and raises an uncaught
KeyError — `Except.error ()` — when the count entry is absent. -/
def buildReleaseNotes (listItemSymbol : String) (store : CategorisedStore)
    (upgradeInstructions : List String) : Except Unit (String × CategorisedStore) :=
  match store.count with
  | none => Except.error ()
  | some breakingChangeCount =>
    let contentsSection := createContentsSection listItemSymbol store.sections breakingChangeCount
    let upgradeSection :=
      if breakingChangeCount > 0 then
        "---\n" ++ createBreakingChangeUpgradeSection upgradeInstructions
      else ""
    Except.ok
      (AUTO_GENERATION_START_INDICATOR ++ "\n" ++ contentsSection ++ upgradeSection ++
        AUTO_GENERATION_END_INDICATOR,
       { store with count := none })

/-! ### Merge engine (`generate`, lines 153-169) -/

/-- Python `"".join(previous.split(START)[1:])`: the remainder of the
previous notes after the first start sentinel, with any further start
sentinels removed by the join. -/
def mergeRemainder (previous : List Char) : List Char :=
  ((splitOnL AUTO_GENERATION_START_INDICATOR.data previous).tail).flatten

/-- Python `remainder.split(END)[-1]`: the merge suffix before the final
newline strip — the text after the last end sentinel of the remainder (the
whole remainder when no end sentinel occurs). -/
def mergeSuffixRaw (previous : List Char) : List Char :=
  (splitOnL AUTO_GENERATION_END_INDICATOR.data (mergeRemainder previous)).getLastD []

/-- Lines 156-169: splice the freshly generated notes into the previous
notes.  Prefix (before the first start sentinel, trailing newlines
stripped), generated block and suffix (after the last end sentinel, newlines
stripped) are joined with single newlines and the result is stripped of
quote/newline characters at both ends. -/
def mergeIntoPrevious (previousNotes autogeneratedReleaseNotes : String) : String :=
  ⟨stripChars ['\"', '\n']
    (stripChars ['\n'] ((splitOnL AUTO_GENERATION_START_INDICATOR.data previousNotes.data).headD []) ++
      '\n' :: autogeneratedReleaseNotes.data ++
      '\n' :: stripChars ['\n'] (mergeSuffixRaw previousNotes.data))⟩

/-! ### Top-level `generate` (GitHub commit-message path) -/

/-- Embedding of `generate` for a run that has a current pull request: the
previous notes are its body (the empty string standing for the absent/empty
Python value, both falsy) and the commit messages come from the pull
request.  The skip sentinel short-circuits everything; otherwise the
commits are parsed, categorised and built, and the result is returned
directly (no previous notes) or merged into the previous notes. -/
def generate (mapping : List (String × String)) (listItemSymbol : String)
    (previousNotes : String) (commitMessages : List String) : Except Unit String :=
  if previousNotes ≠ "" ∧ hasSubstr previousNotes SKIP_INDICATOR = true then
    Except.ok previousNotes
  else do
    let (parsedCommits, unparsedCommits) := parseCommitMessagesFromGithub commitMessages
    let (store, upgradeInstructions) ←
      categoriseCommitMessages mapping parsedCommits unparsedCommits
    let (notes, _) ← buildReleaseNotes listItemSymbol store upgradeInstructions
    if previousNotes = "" then return notes
    else return mergeIntoPrevious previousNotes notes

/-! ### Observation functions and specification-side definitions -/

/-- Notes recorded under a heading and scope (empty when either level of the
nested dict has no such key). -/
def bucketOf (sections : Sections) (heading scope : String) : List String :=
  match alookup sections heading with
  | none => []
  | some hd => (alookup hd scope).getD []

/-- Lowercase notes recorded by the duplicate tracker under a heading and
scope. -/
def seenOf (tracker : Sections) (heading scope : String) : List String :=
  match alookup tracker heading with
  | none => []
  | some td => (alookup td scope).getD []

/-- Case-insensitive first-occurrence deduplication, threading the set of
lowercase forms already seen.  This follows the specification's description
of the per-bucket deduplication rule and is the reference the categoriser
is compared against. -/
def dedupLowerAux (seen : List String) : List String → List String
  | [] => []
  | n :: ns =>
    if lowerStr n ∈ seen then dedupLowerAux seen ns
    else n :: dedupLowerAux (lowerStr n :: seen) ns

/-- Case-insensitive deduplication keeping the first-seen casing and order. -/
def dedupByLower (notes : List String) : List String :=
  dedupLowerAux [] notes

/-- The seen-set accumulated by `dedupLowerAux` after a list of notes. -/
def seenAcc (seen : List String) : List String → List String
  | [] => seen
  | n :: ns =>
    if lowerStr n ∈ seen then seenAcc seen ns else seenAcc (lowerStr n :: seen) ns

/-- The rendered notes that the categoriser's main path routes to a given
heading and scope: commits whose type resolves to the heading and whose
effective scope matches, in encounter order. -/
def routedNotes (mapping : List (String × String)) (heading scope : String)
    (commits : List ParsedCommit) : List String :=
  commits.filterMap fun c =>
    if alookup mapping c.code = some heading ∧ effScope c = scope then
      some (renderNote c)
    else none

/-- Number of parsed commits whose bodies carry a breaking-change marker. -/
def countBreaking (commits : List ParsedCommit) : Nat :=
  commits.countP fun c => hasBreakingChange c.body

/-- Invariant of the categoriser fold after the given commits have been
processed: the Other/Uncategorised headings are absent from the categorised
dict (as with the default mapping), the breaking-change count matches, every
bucket is the case-insensitively deduplicated sequence of the notes routed
to it, and the tracker records exactly the lowercase forms of those notes. -/
def CatInv (mapping : List (String × String)) (processed : List ParsedCommit)
    (st : CatState) : Prop :=
  alookup st.sections OTHER_SECTION_HEADING = none ∧
  alookup st.sections UNCATEGORISED_SECTION_HEADING = none ∧
  st.count = countBreaking processed ∧
  (∀ heading scope, bucketOf st.sections heading scope =
    dedupByLower (routedNotes mapping heading scope processed)) ∧
  (∀ heading scope y, y ∈ seenOf st.tracker heading scope ↔
    y ∈ (routedNotes mapping heading scope processed).map lowerStr)

/-- Modelled from the spec: the text from just after the first occurrence of
the separator onward (used only to state what the specification's merge
description would compute, for comparison with the code's suffix). -/
def afterFirst (sep s : List Char) : List Char :=
  joinSep sep ((splitOnL sep s).tail)

/-! ### Concrete documents used by the end-to-end claims -/

/-- The document the embedded pipeline produces for the four-commit
end-to-end scenario (no previous notes, default mapping). -/
def c1Doc : String :=
  "<!--- START AUTOGENERATED NOTES --->\n## ✨ New Features\n### Api\n - Add endpoint\n\n## 🐛 Bug Fixes\n### Miscellaneous\n - Null pointer\n\n## 🧹 Chores\n### Miscellaneous\n - Bump deps\n\n<!--- END AUTOGENERATED NOTES --->"

/-- Previous notes with a start sentinel but no end sentinel. -/
def c4PrevNoEnd : String := "A\n<!--- START AUTOGENERATED NOTES --->\nOLD"

/-- Previous notes whose generated region is followed by two end sentinels. -/
def c4PrevTwoEnds : String :=
  "A\n<!--- START AUTOGENERATED NOTES --->\nX\n<!--- END AUTOGENERATED NOTES --->\nY\n<!--- END AUTOGENERATED NOTES --->\nZ"

/-- Tiny mapping used by the C6 and C7 witnesses. -/
def demoMapping : List (String × String) := [("feat", "## Features")]

/-- Commits whose rendered notes differ only in letter case (C6 witness). -/
def demoDedupCommits : List ParsedCommit :=
  [{ code := "feat", scope := none, header := "Fix Thing", body := "" },
   { code := "feat", scope := none, header := "fix thing", body := "" },
   { code := "feat", scope := none, header := "Other note", body := "" }]

/-- A single breaking-change commit (C7 witness). -/
def demoBreakingCommits : List ParsedCommit :=
  [{ code := "feat", scope := some "core", header := "change signature",
     body := "BREAKING-CHANGE: callers must update X" }]

/-- The categorised store produced for `demoBreakingCommits`. -/
def demoBreakingStore : CategorisedStore :=
  { sections := [("## Features",
      [("core", ["💥 **BREAKING CHANGE:** change signature"])])],
    count := some 1 }

/-- The upgrade-instruction blocks produced for `demoBreakingCommits`. -/
def demoBreakingUpgrades : List String :=
  ["<details>\n<summary>💥 <b>(core) change signature</b></summary>\n\ncallers must update X\n</details>"]

/-! ### Claim theorems -/

set_option maxRecDepth 40000

/-- C1: the four-commit scenario does produce the New Features, Bug Fixes and
Chores sections with the expected scopes and notes, but the code drops the
unparseable commit instead of rendering an Uncategorised section: the
`"### ❓ Uncategorised!"` heading is never a key of the categorised dict
(which is initialised from the mapping's values only), so the insertion at
lines 398-426 raises a KeyError that is caught and logged, and "random
commit" is absent from the output. -/
theorem uncategorised_commits_dropped :
    generate COMMIT_CODES_TO_HEADINGS_MAPPING "-" ""
      ["feat(api): add endpoint", "fix: null pointer", "chore: bump deps", "random commit"] =
      Except.ok c1Doc ∧
    hasSubstr c1Doc "## ✨ New Features\n### Api\n - Add endpoint" = true ∧
    hasSubstr c1Doc "## 🐛 Bug Fixes\n### Miscellaneous\n - Null pointer" = true ∧
    hasSubstr c1Doc "## 🧹 Chores\n### Miscellaneous\n - Bump deps" = true ∧
    hasSubstr c1Doc "random commit" = false ∧
    hasSubstr c1Doc "Uncategorised" = false :=
  ⟨rfl, rfl, rfl, rfl, rfl, rfl⟩

/-- C2: a parsed commit whose type is absent from the mapping is NOT routed
to the "Other" heading — the `except KeyError` handler subscripts
`categorised_commits[OTHER_SECTION_HEADING]`, and `"### 🔀 Other"` is never
a key of that dict (its values are all `## ...` headings), so a second
KeyError is raised inside the handler and aborts generation. -/
theorem unknown_commit_type_fatal :
    categoriseCommitMessages COMMIT_CODES_TO_HEADINGS_MAPPING
      [{ code := "foo", scope := none, header := "something", body := "" }] [] =
      Except.error () ∧
    generate COMMIT_CODES_TO_HEADINGS_MAPPING "-" "" ["foo: something"] =
      Except.error () :=
  ⟨rfl, rfl⟩

/-- C3: merging the freshly generated block into previous notes replaces
exactly the text between the sentinels and preserves the text outside. -/
theorem merge_replaces_between_sentinels :
    mergeIntoPrevious
      "A\n<!--- START AUTOGENERATED NOTES --->\nOLD\n<!--- END AUTOGENERATED NOTES --->\nB"
      "<!--- START AUTOGENERATED NOTES --->\nNEW\n<!--- END AUTOGENERATED NOTES --->" =
      "A\n<!--- START AUTOGENERATED NOTES --->\nNEW\n<!--- END AUTOGENERATED NOTES --->\nB" :=
  rfl

/-- C4 (counterexample): with a start sentinel but no end sentinel the merge
suffix is the whole remainder ("OLD"), not the empty string the claim
demands; and with two end sentinels the code's suffix is the text after the
LAST end sentinel, not the text from the first occurrence onward. -/
theorem merge_suffix_spec_counterexample :
    occursIn AUTO_GENERATION_START_INDICATOR.data c4PrevNoEnd.data = true ∧
    occursIn AUTO_GENERATION_END_INDICATOR.data c4PrevNoEnd.data = false ∧
    stripChars ['\n'] (mergeSuffixRaw c4PrevNoEnd.data) = "OLD".data ∧
    "OLD".data ≠ [] ∧
    occursIn AUTO_GENERATION_START_INDICATOR.data c4PrevTwoEnds.data = true ∧
    mergeSuffixRaw c4PrevTwoEnds.data = "\nZ".data ∧
    afterFirst AUTO_GENERATION_END_INDICATOR.data (mergeRemainder c4PrevTwoEnds.data) =
      "\nY\n<!--- END AUTOGENERATED NOTES --->\nZ".data ∧
    mergeSuffixRaw c4PrevTwoEnds.data ≠
      afterFirst AUTO_GENERATION_END_INDICATOR.data (mergeRemainder c4PrevTwoEnds.data) :=
  ⟨rfl, rfl, rfl, by decide, rfl, rfl, rfl, by decide⟩

/-- C5 (counterexample): building the release notes from a store succeeds
once but mutates the store — the breaking-change count entry is popped — and
building again from the store left behind by the first rendering fails with
an error instead of succeeding with identical text. -/
theorem rebuild_same_store_counterexample :
    buildReleaseNotes "-" { sections := [], count := some 0 } [] =
      Except.ok
        ("<!--- START AUTOGENERATED NOTES --->\n<!--- END AUTOGENERATED NOTES --->",
         { sections := [], count := none }) ∧
    buildReleaseNotes "-" { sections := [], count := none } [] = Except.error () :=
  ⟨rfl, rfl⟩

/-- C5 (amended): whenever the store still carries the breaking-change
count, rendering succeeds and returns the store with the count popped; a
second rendering of that post-render store fails with an error.  Rendering
is a pure function of its input, so re-rendering an equal fresh store value
gives byte-identical text, but a second rendering of the store the first
call left behind does not succeed. -/
theorem build_release_notes_pops_count (listItemSymbol : String)
    (store : CategorisedStore) (upgradeInstructions : List String) (n : Nat)
    (h : store.count = some n) :
    ∃ t, buildReleaseNotes listItemSymbol store upgradeInstructions =
        Except.ok (t, { store with count := none }) ∧
      buildReleaseNotes listItemSymbol { store with count := none } upgradeInstructions =
        Except.error () := by
  obtain ⟨secs, cnt⟩ := store
  obtain rfl : cnt = some n := h
  exact ⟨_, rfl, rfl⟩

/-- Witness for the C5 amended theorem at a concrete store. -/
theorem build_release_notes_pops_count_witness :
    ∃ t, buildReleaseNotes "-" { sections := [], count := some 0 } [] =
        Except.ok (t, { sections := [], count := none }) ∧
      buildReleaseNotes "-" { sections := [], count := none } [] = Except.error () :=
  build_release_notes_pops_count "-" { sections := [], count := some 0 } [] 0 rfl

/-- C8: previous notes that are non-empty and contain the skip sentinel are
returned unchanged by generate, whatever the commit messages are. -/
theorem skip_indicator_returns_previous (mapping : List (String × String))
    (listItemSymbol previousNotes : String) (commitMessages : List String)
    (h1 : previousNotes ≠ "") (h2 : hasSubstr previousNotes SKIP_INDICATOR = true) :
    generate mapping listItemSymbol previousNotes commitMessages =
      Except.ok previousNotes := by
  unfold generate
  rw [if_pos ⟨h1, h2⟩]

/-- Witness for C8 at concrete previous notes and commit list. -/
theorem skip_indicator_returns_previous_witness :
    generate COMMIT_CODES_TO_HEADINGS_MAPPING "-"
      "notes\n<!--- SKIP AUTOGENERATED NOTES --->" ["feat: x"] =
      Except.ok "notes\n<!--- SKIP AUTOGENERATED NOTES --->" :=
  skip_indicator_returns_previous COMMIT_CODES_TO_HEADINGS_MAPPING "-"
    "notes\n<!--- SKIP AUTOGENERATED NOTES --->" ["feat: x"] (by decide) rfl

/-- C9 (code_bug evidence): the rendered subsection formats the scope
subheading (underscores/hyphens to spaces, title case) and upper-cases each
note's first character, but the bullet is the hard-coded literal " - ":
with the list-item symbol configured as "*" the output still uses " - " and
contains no "*" at all — `_create_contents_subsection` never consults the
configured symbol, although the parameter is documented as the symbol used
for listing the commit messages. -/
theorem subsection_ignores_list_item_symbol :
    createContentsSection "*" [("## ✨ New Features", [("api", ["add endpoint"])])] 0 =
      "## ✨ New Features\n### Api\n - Add endpoint\n\n" ∧
    hasSubstr "## ✨ New Features\n### Api\n - Add endpoint\n\n" "*" = false ∧
    createContentsSubsection "## ✨ New Features" [("api", ["add endpoint"])] =
      "## ✨ New Features\n### Api\n - Add endpoint\n\n" ∧
    formatScope "my_scope-name" = "My Scope Name" ∧
    upperFirst "add endpoint" = "Add endpoint" :=
  ⟨rfl, rfl, rfl, rfl, rfl⟩

/-- Associativity of string concatenation (via the underlying char lists). -/
theorem str_append_assoc (a b c : String) : a ++ b ++ c = a ++ (b ++ c) :=
  String.ext (by simp [String.data_append, List.append_assoc])

/-- C10: whenever `_build_release_notes` produces a block, that block starts
with the start sentinel followed by a newline and ends exactly with the end
sentinel, whatever lies in between. -/
theorem release_notes_sentinel_wrapped (listItemSymbol : String)
    (store : CategorisedStore) (upgradeInstructions : List String) (t : String)
    (store' : CategorisedStore)
    (h : buildReleaseNotes listItemSymbol store upgradeInstructions =
      Except.ok (t, store')) :
    ∃ mid, t = AUTO_GENERATION_START_INDICATOR ++ "\n" ++ mid ++
      AUTO_GENERATION_END_INDICATOR := by
  unfold buildReleaseNotes at h
  cases hc : store.count with
  | none =>
    rw [hc] at h
    exact absurd h (by simp)
  | some n =>
    rw [hc] at h
    simp only [Except.ok.injEq, Prod.mk.injEq] at h
    obtain ⟨ht, -⟩ := h
    refine ⟨createContentsSection listItemSymbol store.sections n ++
      (if n > 0 then "---\n" ++ createBreakingChangeUpgradeSection upgradeInstructions
       else ""), ?_⟩
    rw [← ht]
    simp only [str_append_assoc]

/-- Witness for C10 at a concrete empty store. -/
theorem release_notes_sentinel_wrapped_witness :
    ∃ mid,
      "<!--- START AUTOGENERATED NOTES --->\n<!--- END AUTOGENERATED NOTES --->" =
        AUTO_GENERATION_START_INDICATOR ++ "\n" ++ mid ++
          AUTO_GENERATION_END_INDICATOR :=
  release_notes_sentinel_wrapped "-" { sections := [], count := some 0 } [] _ _ rfl

/-! ### Splitting lemmas for the merge engine (claim C4) -/

/-- A successful startswith test decomposes the list. -/
theorem leadsWith_eq_append (sep : List Char) :
    ∀ l, leadsWith sep l = true → sep ++ l.drop sep.length = l := by
  induction sep with
  | nil => intro l _; simp
  | cons a as ih =>
    intro l h
    cases l with
    | nil => simp [leadsWith] at h
    | cons b bs =>
      simp only [leadsWith] at h
      by_cases hab : a = b
      · subst hab
        rw [if_pos rfl] at h
        simp only [List.length_cons, List.cons_append, List.drop_succ_cons]
        exact congrArg (List.cons a) (ih bs h)
      · rw [if_neg hab] at h
        exact absurd h (by simp)

/-- The bounded splitter never returns an empty list of parts. -/
theorem splitOnB_ne_nil (sep : List Char) (b : Nat) (s : List Char) :
    splitOnB sep b s ≠ [] := by
  cases s with
  | nil => simp [splitOnB]
  | cons c rest =>
    cases b with
    | zero => simp [splitOnB]
    | succ b' =>
      simp only [splitOnB]
      split
      · simp
      · split <;> simp

/-- Joining the parts with the separator reconstructs the original list. -/
theorem splitOnB_reconstruct (sep : List Char) :
    ∀ (b : Nat) (s : List Char), s.length ≤ b →
      joinSep sep (splitOnB sep b s) = s := by
  intro b
  induction b with
  | zero =>
    intro s hs
    obtain rfl : s = [] := List.length_eq_zero.mp (Nat.le_zero.mp hs)
    simp [splitOnB, joinSep]
  | succ b' ih =>
    intro s hs
    cases s with
    | nil => simp [splitOnB, joinSep]
    | cons c rest =>
      have hrest : rest.length ≤ b' := Nat.succ_le_succ_iff.mp (by simpa using hs)
      simp only [splitOnB]
      split
      · rename_i hcond
        have hlw := hcond.1
        have hsep := hcond.2
        have hseplen : 1 ≤ sep.length := by
          cases sep with
          | nil => exact absurd rfl hsep
          | cons x xs => simp
        have hlen : ((c :: rest).drop sep.length).length ≤ b' := by
          simp only [List.length_drop, List.length_cons]
          omega
        have hrec := ih ((c :: rest).drop sep.length) hlen
        obtain ⟨t, ts, hts⟩ :=
          List.exists_cons_of_ne_nil (splitOnB_ne_nil sep b' ((c :: rest).drop sep.length))
        rw [hts]
        simp only [joinSep, List.nil_append]
        rw [← hts, hrec]
        exact leadsWith_eq_append sep _ hlw
      · cases hmatch : splitOnB sep b' rest with
        | nil => exact absurd hmatch (splitOnB_ne_nil sep b' rest)
        | cons t ts =>
          have hrec := ih rest hrest
          rw [hmatch] at hrec
          cases ts with
          | nil =>
            simp only [joinSep] at hrec
            simp only [joinSep, hrec]
          | cons u us =>
            simp only [joinSep] at hrec ⊢
            rw [← hrec]
            simp [List.cons_append]

/-- When the separator does not occur, splitting returns the whole list. -/
theorem splitOnB_of_not_occurs (sep : List Char) :
    ∀ (b : Nat) (s : List Char), occursIn sep s = false → splitOnB sep b s = [s] := by
  intro b
  induction b with
  | zero => intro s _; cases s <;> simp [splitOnB]
  | succ b' ih =>
    intro s h
    cases s with
    | nil => simp [splitOnB]
    | cons c rest =>
      simp only [occursIn, Bool.or_eq_false_iff] at h
      simp only [splitOnB]
      rw [if_neg (by simp [h.1])]
      rw [ih rest h.2]

/-- When the separator occurs, splitting yields at least two parts. -/
theorem two_le_splitOnB_of_occurs (sep : List Char) (hsep : sep ≠ []) :
    ∀ (b : Nat) (s : List Char), s.length ≤ b → occursIn sep s = true →
      2 ≤ (splitOnB sep b s).length := by
  intro b
  induction b with
  | zero =>
    intro s hs h
    obtain rfl : s = [] := List.length_eq_zero.mp (Nat.le_zero.mp hs)
    simp only [occursIn, List.isEmpty_iff] at h
    exact absurd h hsep
  | succ b' ih =>
    intro s hs h
    cases s with
    | nil =>
      simp only [occursIn, List.isEmpty_iff] at h
      exact absurd h hsep
    | cons c rest =>
      have hrest : rest.length ≤ b' := Nat.succ_le_succ_iff.mp (by simpa using hs)
      simp only [splitOnB]
      split
      · obtain ⟨t, ts, hts⟩ :=
          List.exists_cons_of_ne_nil (splitOnB_ne_nil sep b' ((c :: rest).drop sep.length))
        rw [hts]
        simp
      · rename_i hcond
        have hlw : leadsWith sep (c :: rest) = false := by
          rcases Bool.eq_false_or_eq_true (leadsWith sep (c :: rest)) with ht | hf
          · exact absurd ⟨ht, hsep⟩ hcond
          · exact hf
        have hocc : occursIn sep rest = true := by
          simpa only [occursIn, hlw, Bool.false_or] using h
        have h2 := ih rest hrest hocc
        cases hmatch : splitOnB sep b' rest with
        | nil => exact absurd hmatch (splitOnB_ne_nil sep b' rest)
        | cons t ts =>
          rw [hmatch] at h2
          simpa using h2

/-- The last part returned by the splitter contains no further occurrence of
the separator. -/
theorem splitOnB_getLast_not_occurs (sep : List Char) (hsep : sep ≠ []) :
    ∀ (b : Nat) (s : List Char), s.length ≤ b →
      occursIn sep ((splitOnB sep b s).getLastD []) = false := by
  intro b
  induction b with
  | zero =>
    intro s hs
    obtain rfl : s = [] := List.length_eq_zero.mp (Nat.le_zero.mp hs)
    simp only [splitOnB, List.getLastD_cons, List.getLastD_nil, occursIn]
    simpa [List.isEmpty_iff] using hsep
  | succ b' ih =>
    intro s hs
    cases s with
    | nil =>
      simp only [splitOnB, List.getLastD_cons, List.getLastD_nil, occursIn]
      simpa [List.isEmpty_iff] using hsep
    | cons c rest =>
      have hrest : rest.length ≤ b' := Nat.succ_le_succ_iff.mp (by simpa using hs)
      simp only [splitOnB]
      split
      · rename_i hcond
        have hseplen : 1 ≤ sep.length := by
          cases sep with
          | nil => exact absurd rfl hcond.2
          | cons x xs => simp
        have hlen : ((c :: rest).drop sep.length).length ≤ b' := by
          simp only [List.length_drop, List.length_cons]
          omega
        obtain ⟨t, ts, hts⟩ :=
          List.exists_cons_of_ne_nil (splitOnB_ne_nil sep b' ((c :: rest).drop sep.length))
        rw [hts, List.getLastD_cons, ← hts]
        exact ih _ hlen
      · rename_i hcond
        have hlw : leadsWith sep (c :: rest) = false := by
          rcases Bool.eq_false_or_eq_true (leadsWith sep (c :: rest)) with ht | hf
          · exact absurd ⟨ht, hsep⟩ hcond
          · exact hf
        cases hmatch : splitOnB sep b' rest with
        | nil => exact absurd hmatch (splitOnB_ne_nil sep b' rest)
        | cons t ts =>
          cases ts with
          | nil =>
            have hrec := splitOnB_reconstruct sep b' rest hrest
            rw [hmatch] at hrec
            simp only [joinSep] at hrec
            have hoccrest : occursIn sep rest = false := by
              rcases Bool.eq_false_or_eq_true (occursIn sep rest) with ht | hf
              · have := two_le_splitOnB_of_occurs sep hsep b' rest hrest ht
                rw [hmatch] at this
                simp at this
              · exact hf
            subst hrec
            simp only [List.getLastD_cons, List.getLastD_nil, occursIn, hlw, hoccrest]
            simp
          | cons u us =>
            have hlast := ih rest hrest
            rw [hmatch] at hlast
            simp only [List.getLastD_cons] at hlast ⊢
            exact hlast

/-- Joining at least two parts puts the separator right before the last
part. -/
theorem joinSep_getLast (sep : List Char) :
    ∀ ps : List (List Char), 2 ≤ ps.length →
      ∃ pre, joinSep sep ps = pre ++ sep ++ ps.getLastD [] := by
  intro ps
  induction ps with
  | nil => intro h; simp at h
  | cons p qs ih =>
    intro h
    cases qs with
    | nil => simp at h
    | cons q rs =>
      cases rs with
      | nil =>
        refine ⟨p, ?_⟩
        simp [joinSep, List.getLastD_cons]
      | cons r rs' =>
        obtain ⟨pre, hpre⟩ := ih (by simp)
        refine ⟨p ++ sep ++ pre, ?_⟩
        simp only [joinSep] at hpre ⊢
        rw [hpre]
        simp only [List.getLastD_cons, List.append_assoc]

/-- C4 (amended): for every previous text containing the start sentinel, the
merge suffix (before its newline strip) is the text after the LAST
occurrence of the end sentinel in the remainder following the start sentinel
(the concatenation of the split segments after it): the remainder decomposes
as some prefix, the end sentinel, then the suffix, and the suffix contains
no further end sentinel; and when the remainder contains no end sentinel the
suffix is the WHOLE remainder (not the empty string). -/
theorem merge_suffix_after_last_end (previous : List Char)
    (hstart : occursIn AUTO_GENERATION_START_INDICATOR.data previous = true) :
    (occursIn AUTO_GENERATION_END_INDICATOR.data (mergeRemainder previous) = true →
      (∃ pre, mergeRemainder previous =
        pre ++ AUTO_GENERATION_END_INDICATOR.data ++ mergeSuffixRaw previous) ∧
      occursIn AUTO_GENERATION_END_INDICATOR.data (mergeSuffixRaw previous) = false) ∧
    (occursIn AUTO_GENERATION_END_INDICATOR.data (mergeRemainder previous) = false →
      mergeSuffixRaw previous = mergeRemainder previous) := by
  have hsep : AUTO_GENERATION_END_INDICATOR.data ≠ [] := by decide
  constructor
  · intro hocc
    constructor
    · have h2 := two_le_splitOnB_of_occurs AUTO_GENERATION_END_INDICATOR.data hsep
        (mergeRemainder previous).length (mergeRemainder previous) (Nat.le_refl _) hocc
      obtain ⟨pre, hpre⟩ := joinSep_getLast AUTO_GENERATION_END_INDICATOR.data _ h2
      refine ⟨pre, ?_⟩
      conv_lhs => rw [← splitOnB_reconstruct AUTO_GENERATION_END_INDICATOR.data
        (mergeRemainder previous).length (mergeRemainder previous) (Nat.le_refl _)]
      exact hpre
    · exact splitOnB_getLast_not_occurs AUTO_GENERATION_END_INDICATOR.data hsep
        (mergeRemainder previous).length (mergeRemainder previous) (Nat.le_refl _)
  · intro hocc
    show (splitOnL AUTO_GENERATION_END_INDICATOR.data (mergeRemainder previous)).getLastD [] =
      mergeRemainder previous
    unfold splitOnL
    rw [splitOnB_of_not_occurs AUTO_GENERATION_END_INDICATOR.data
      (mergeRemainder previous).length (mergeRemainder previous) hocc]
    rfl

/-- Witness for the C4 amended theorem on a previous document with one
generated region. -/
theorem merge_suffix_after_last_end_witness :
    occursIn AUTO_GENERATION_START_INDICATOR.data
      "A\n<!--- START AUTOGENERATED NOTES --->\nOLD\n<!--- END AUTOGENERATED NOTES --->\nB".data = true ∧
    ((occursIn AUTO_GENERATION_END_INDICATOR.data
        (mergeRemainder "A\n<!--- START AUTOGENERATED NOTES --->\nOLD\n<!--- END AUTOGENERATED NOTES --->\nB".data) = true →
      (∃ pre, mergeRemainder "A\n<!--- START AUTOGENERATED NOTES --->\nOLD\n<!--- END AUTOGENERATED NOTES --->\nB".data =
        pre ++ AUTO_GENERATION_END_INDICATOR.data ++
          mergeSuffixRaw "A\n<!--- START AUTOGENERATED NOTES --->\nOLD\n<!--- END AUTOGENERATED NOTES --->\nB".data) ∧
      occursIn AUTO_GENERATION_END_INDICATOR.data
        (mergeSuffixRaw "A\n<!--- START AUTOGENERATED NOTES --->\nOLD\n<!--- END AUTOGENERATED NOTES --->\nB".data) = false) ∧
    (occursIn AUTO_GENERATION_END_INDICATOR.data
        (mergeRemainder "A\n<!--- START AUTOGENERATED NOTES --->\nOLD\n<!--- END AUTOGENERATED NOTES --->\nB".data) = false →
      mergeSuffixRaw "A\n<!--- START AUTOGENERATED NOTES --->\nOLD\n<!--- END AUTOGENERATED NOTES --->\nB".data =
        mergeRemainder "A\n<!--- START AUTOGENERATED NOTES --->\nOLD\n<!--- END AUTOGENERATED NOTES --->\nB".data)) :=
  ⟨rfl, merge_suffix_after_last_end
    "A\n<!--- START AUTOGENERATED NOTES --->\nOLD\n<!--- END AUTOGENERATED NOTES --->\nB".data rfl⟩

/-! ### Dictionary lemmas -/

/-- Lookup after assignment: the assigned key reads back the new value and
every other key is untouched. -/
theorem alookup_aset (l : List (String × α)) (k : String) (v : α) (q : String) :
    alookup (aset l k v) q = if k = q then some v else alookup l q := by
  induction l with
  | nil => simp [aset, alookup]
  | cons p rest ih =>
    obtain ⟨a, w⟩ := p
    by_cases hak : a = k
    · subst hak
      by_cases haq : a = q
      · simp [aset, alookup, haq]
      · simp [aset, alookup, haq]
    · simp only [aset, if_neg hak]
      by_cases haq : a = q
      · subst haq
        have : ¬ k = a := fun h => hak h.symm
        simp [alookup, this]
      · simp [alookup, haq, ih]

/-- Assignment to an existing key does not change which keys are present. -/
theorem alookup_aset_isSome (l : List (String × α)) (k : String) (v : α) (w : α)
    (hk : alookup l k = some w) (q : String) :
    (alookup (aset l k v) q).isSome = (alookup l q).isSome := by
  rw [alookup_aset]
  by_cases hkq : k = q
  · subst hkq
    simp [hk]
  · simp [hkq]

/-! ### Deduplication lemmas -/

/-- Splitting a deduplication run at an append boundary. -/
theorem dedupLowerAux_append (xs ys : List String) :
    ∀ seen, dedupLowerAux seen (xs ++ ys) =
      dedupLowerAux seen xs ++ dedupLowerAux (seenAcc seen xs) ys := by
  induction xs with
  | nil => intro seen; simp [dedupLowerAux, seenAcc]
  | cons x xs ih =>
    intro seen
    by_cases hx : lowerStr x ∈ seen
    · simp only [List.cons_append, dedupLowerAux, seenAcc, if_pos hx]
      exact ih seen
    · simp only [List.cons_append, dedupLowerAux, seenAcc, if_neg hx]
      rw [show (xs.append ys) = xs ++ ys from rfl, ih (lowerStr x :: seen)]

/-- Membership in the accumulated seen-set. -/
theorem mem_seenAcc (y : String) (xs : List String) :
    ∀ seen, y ∈ seenAcc seen xs ↔ y ∈ seen ∨ y ∈ xs.map lowerStr := by
  induction xs with
  | nil => intro seen; simp [seenAcc]
  | cons x xs ih =>
    intro seen
    by_cases hx : lowerStr x ∈ seen
    · simp only [seenAcc, if_pos hx, List.map_cons, List.mem_cons]
      rw [ih seen]
      constructor
      · rintro (h | h)
        · exact Or.inl h
        · exact Or.inr (Or.inr h)
      · rintro (h | h | h)
        · exact Or.inl h
        · exact Or.inl (h ▸ hx)
        · exact Or.inr h
    · simp only [seenAcc, if_neg hx, List.map_cons, List.mem_cons]
      rw [ih (lowerStr x :: seen)]
      simp only [List.mem_cons]
      tauto

/-- Deduplication only looks at the seen-set through membership. -/
theorem dedupLowerAux_congr (xs : List String) :
    ∀ seen seen', (∀ y, y ∈ seen ↔ y ∈ seen') →
      dedupLowerAux seen xs = dedupLowerAux seen' xs := by
  induction xs with
  | nil => intro seen seen' _; rfl
  | cons x xs ih =>
    intro seen seen' hmem
    by_cases hx : lowerStr x ∈ seen
    · have hx' : lowerStr x ∈ seen' := (hmem _).mp hx
      simp only [dedupLowerAux, if_pos hx, if_pos hx']
      exact ih seen seen' hmem
    · have hx' : lowerStr x ∉ seen' := fun h => hx ((hmem _).mpr h)
      simp only [dedupLowerAux, if_neg hx, if_neg hx']
      refine congrArg (List.cons x) (ih _ _ ?_)
      intro y
      simp only [List.mem_cons]
      rw [hmem y]

/-- Appending one more note to a deduplication run. -/
theorem dedupByLower_append (xs : List String) (n : String) :
    dedupByLower (xs ++ [n]) =
      dedupByLower xs ++ (if lowerStr n ∈ xs.map lowerStr then [] else [n]) := by
  unfold dedupByLower
  rw [dedupLowerAux_append]
  by_cases hn : lowerStr n ∈ xs.map lowerStr
  · have : lowerStr n ∈ seenAcc [] xs := (mem_seenAcc _ _ _).mpr (Or.inr hn)
    simp [dedupLowerAux, this, hn]
  · have : lowerStr n ∉ seenAcc [] xs := by
      intro h
      rcases (mem_seenAcc _ _ _).mp h with h | h
      · simp at h
      · exact hn h
    simp [dedupLowerAux, this, hn]

/-- A nonempty list deduplicates to a nonempty list. -/
theorem dedupByLower_eq_nil (xs : List String) (h : dedupByLower xs = []) : xs = [] := by
  cases xs with
  | nil => rfl
  | cons x rest =>
    unfold dedupByLower dedupLowerAux at h
    rw [if_neg (by simp)] at h
    exact absurd h (by simp)

/-! ### Routing lemmas -/

/-- One more commit either contributes its rendered note to its own bucket
or leaves a bucket's routed notes unchanged. -/
theorem routedNotes_append (mapping : List (String × String)) (heading scope : String)
    (l : List ParsedCommit) (c : ParsedCommit) :
    routedNotes mapping heading scope (l ++ [c]) =
      routedNotes mapping heading scope l ++
        (if alookup mapping c.code = some heading ∧ effScope c = scope then
          [renderNote c]
        else []) := by
  unfold routedNotes
  rw [List.filterMap_append]
  congr 1
  by_cases hc : alookup mapping c.code = some heading ∧ effScope c = scope
  · simp [List.filterMap, hc]
  · simp [List.filterMap, hc]

/-- Breaking-change counting over an appended commit. -/
theorem countBreaking_append (l : List ParsedCommit) (c : ParsedCommit) :
    countBreaking (l ++ [c]) =
      countBreaking l + (if hasBreakingChange c.body then 1 else 0) := by
  unfold countBreaking
  rw [List.countP_append]
  congr 1
  by_cases hb : hasBreakingChange c.body
  · simp [List.countP, List.countP.go, hb]
  · simp [List.countP, List.countP.go, hb]

/-! ### Initial-state lemmas for the categoriser -/

/-- Every key of the dict-comprehension fold maps to the empty inner dict. -/
theorem alookup_foldl_aset_nil (m : List (String × String)) :
    ∀ (acc : Sections) (k : String),
      (alookup acc k = none ∨ alookup acc k = some []) →
      (alookup (m.foldl (fun a p => aset a p.2 []) acc) k = none ∨
        alookup (m.foldl (fun a p => aset a p.2 []) acc) k = some []) := by
  induction m with
  | nil => intro acc k h; simpa using h
  | cons p rest ih =>
    intro acc k h
    simp only [List.foldl_cons]
    refine ih _ k ?_
    rw [alookup_aset]
    by_cases hp : p.2 = k
    · right
      rw [if_pos hp]
    · rw [if_neg hp]
      exact h

/-- Every binding of the freshly initialised categorised dict is empty. -/
theorem alookup_initSections (m : List (String × String)) (k : String) :
    alookup (initSections m) k = none ∨ alookup (initSections m) k = some [] :=
  alookup_foldl_aset_nil m [] k (Or.inl rfl)

/-- Every bucket of the freshly initialised categorised dict is empty. -/
theorem bucketOf_initSections (m : List (String × String)) (h s : String) :
    bucketOf (initSections m) h s = [] := by
  unfold bucketOf
  rcases alookup_initSections m h with hh | hh <;> rw [hh]
  simp [alookup]

/-- Every seen-set of the freshly initialised tracker is empty. -/
theorem seenOf_initTracker (m : List (String × String)) (h s : String) :
    seenOf (initTracker m) h s = [] := by
  unfold seenOf initTracker
  rw [alookup_aset]
  by_cases hU : UNCATEGORISED_SECTION_HEADING = h
  · rw [if_pos hU]
    by_cases hs : ("Miscellaneous" : String) = s <;> simp [alookup, hs]
  · rw [if_neg hU, alookup_aset]
    by_cases hO : OTHER_SECTION_HEADING = h
    · rw [if_pos hO]
      by_cases hs : ("Miscellaneous" : String) = s <;> simp [alookup, hs]
    · rw [if_neg hO]
      rcases alookup_foldl_aset_nil m [] h (Or.inl rfl) with hh | hh <;> rw [hh]
      simp [alookup]

/-- With the Uncategorised heading absent from the categorised dict, the
uncategorised phase is the caught KeyError: the state is unchanged and the
unparsed commits are dropped. -/
theorem uncatPhase_of_absent (st : CatState) (u : List String)
    (h : alookup st.sections UNCATEGORISED_SECTION_HEADING = none) :
    uncatPhase st u = st := by
  unfold uncatPhase
  rw [h]

/-- With the Other heading absent from the categorised dict, the `except`
handler's own subscript raises and the run fails. -/
theorem otherBranch_error (st : CatState) (header : String)
    (h : alookup st.sections OTHER_SECTION_HEADING = none) :
    otherBranch st header = Except.error () := by
  unfold otherBranch
  rw [h]

/-- The breaking-change bookkeeping never touches the categorised dict. -/
theorem breakingUpdate_sections (st : CatState) (scope : String) (c : ParsedCommit) :
    (breakingUpdate st scope c).sections = st.sections := by
  unfold breakingUpdate
  by_cases hb : hasBreakingChange c.body <;> simp [hb]

/-- The breaking-change bookkeeping never touches the tracker. -/
theorem breakingUpdate_tracker (st : CatState) (scope : String) (c : ParsedCommit) :
    (breakingUpdate st scope c).tracker = st.tracker := by
  unfold breakingUpdate
  by_cases hb : hasBreakingChange c.body <;> simp [hb]

/-- The breaking-change bookkeeping adds one exactly for breaking commits. -/
theorem breakingUpdate_count (st : CatState) (scope : String) (c : ParsedCommit) :
    (breakingUpdate st scope c).count =
      st.count + (if hasBreakingChange c.body then 1 else 0) := by
  unfold breakingUpdate
  by_cases hb : hasBreakingChange c.body <;> simp [hb]

/-- Characterisation of a successful duplicate-check-and-append step when
the Other heading is absent from the categorised dict (so any KeyError
diversion to the handler would abort the run instead). -/
theorem dedupInsert_ok (st st' : CatState) (heading scope note header : String)
    (hother : alookup st.sections OTHER_SECTION_HEADING = none)
    (hok : dedupInsert st heading scope note header = Except.ok st') :
    ∃ td2 seen, alookup st.tracker heading = some td2 ∧
      alookup td2 scope = some seen ∧
      ((lowerStr note ∈ seen ∧ st' = st) ∨
        (lowerStr note ∉ seen ∧ ∃ hd2 bucket,
          alookup st.sections heading = some hd2 ∧
          alookup hd2 scope = some bucket ∧
          st' = { st with
            sections := aset st.sections heading (aset hd2 scope (bucket ++ [note]))
            tracker := aset st.tracker heading
              (aset td2 scope (seen ++ [lowerStr note])) })) := by
  unfold dedupInsert at hok
  split at hok
  · rw [otherBranch_error st header hother] at hok
    exact absurd hok (by simp)
  · rename_i td2 htd
    split at hok
    · rw [otherBranch_error st header hother] at hok
      exact absurd hok (by simp)
    · rename_i seen hsn
      split at hok
      · rename_i hmem
        exact ⟨td2, seen, htd, hsn, Or.inl ⟨hmem, (Except.ok.inj hok).symm⟩⟩
      · rename_i hmem
        split at hok
        · rw [otherBranch_error st header hother] at hok
          exact absurd hok (by simp)
        · rename_i hd2 hhd
          split at hok
          · rw [otherBranch_error st header hother] at hok
            exact absurd hok (by simp)
          · rename_i bucket hbk
            exact ⟨td2, seen, htd, hsn,
              Or.inr ⟨hmem, hd2, bucket, hhd, hbk, (Except.ok.inj hok).symm⟩⟩

/-- Reading a bucket through a known heading binding. -/
theorem bucketOf_eq_of_alookup (sections : Sections) (h s : String)
    (hd : List (String × List String)) (hh : alookup sections h = some hd) :
    bucketOf sections h s = (alookup hd s).getD [] := by
  unfold bucketOf
  rw [hh]

/-- Reading a bucket after a heading-level assignment. -/
theorem bucketOf_aset (sections : Sections) (k : String)
    (d : List (String × List String)) (h s : String) :
    bucketOf (aset sections k d) h s =
      if k = h then (alookup d s).getD [] else bucketOf sections h s := by
  unfold bucketOf
  rw [alookup_aset]
  by_cases hk : k = h <;> simp [hk]

/-- Reading a seen-set through a known heading binding. -/
theorem seenOf_eq_of_alookup (tracker : Sections) (h s : String)
    (td : List (String × List String)) (hh : alookup tracker h = some td) :
    seenOf tracker h s = (alookup td s).getD [] := by
  unfold seenOf
  rw [hh]

/-- Reading a seen-set after a heading-level assignment. -/
theorem seenOf_aset (tracker : Sections) (k : String)
    (d : List (String × List String)) (h s : String) :
    seenOf (aset tracker k d) h s =
      if k = h then (alookup d s).getD [] else seenOf tracker h s := by
  unfold seenOf
  rw [alookup_aset]
  by_cases hk : k = h <;> simp [hk]

/-- Invariant step for the tail of the `try` body: once the heading has been
resolved (and, when needed, the scope bucket freshly initialised so that the
invariant holds for the incoming state), a successful breaking-change
update plus duplicate-check-and-append preserves the categorisation
invariant, extended by the processed commit. -/
theorem processParsedRest_inv (mapping : List (String × String))
    (processed : List ParsedCommit) (st st' : CatState) (c : ParsedCommit)
    (heading : String)
    (hmap : alookup mapping c.code = some heading)
    (hother : alookup st.sections OTHER_SECTION_HEADING = none)
    (huncat : alookup st.sections UNCATEGORISED_SECTION_HEADING = none)
    (hcount : st.count = countBreaking processed)
    (hbuckets : ∀ h s, bucketOf st.sections h s =
      dedupByLower (routedNotes mapping h s processed))
    (hseen : ∀ h s y, y ∈ seenOf st.tracker h s ↔
      y ∈ (routedNotes mapping h s processed).map lowerStr)
    (hok : processParsedRest st heading (effScope c) c = Except.ok st') :
    CatInv mapping (processed ++ [c]) st' := by
  unfold processParsedRest at hok
  obtain ⟨td2, seen, htd, hsn, hcase⟩ :=
    dedupInsert_ok (breakingUpdate st (effScope c) c) st' heading (effScope c)
      (renderNote c) c.header
      (by rw [breakingUpdate_sections]; exact hother) hok
  rw [breakingUpdate_tracker] at htd
  have hseenTarget : ∀ y, y ∈ seen ↔
      y ∈ (routedNotes mapping heading (effScope c) processed).map lowerStr := by
    intro y
    rw [← hseen heading (effScope c) y, seenOf_eq_of_alookup st.tracker heading (effScope c) td2 htd, hsn]
    rfl
  rcases hcase with ⟨hmem, rfl⟩ | ⟨hmem, hd2, bucket, hhd, hbk, rfl⟩
  · -- duplicate: nothing is appended, only the breaking bookkeeping ran
    refine ⟨?_, ?_, ?_, ?_, ?_⟩
    · rw [breakingUpdate_sections]
      exact hother
    · rw [breakingUpdate_sections]
      exact huncat
    · rw [breakingUpdate_count, hcount, countBreaking_append]
    · intro h s
      rw [show (breakingUpdate st (effScope c) c).sections = st.sections from
        breakingUpdate_sections st (effScope c) c]
      rw [hbuckets h s, routedNotes_append]
      by_cases htail : alookup mapping c.code = some h ∧ effScope c = s
      · obtain rfl : h = heading := Option.some.inj (htail.1.symm.trans hmap)
        obtain rfl : s = effScope c := htail.2.symm
        have hl := (hseenTarget (lowerStr (renderNote c))).mp hmem
        rw [if_pos htail, dedupByLower_append, if_pos hl, List.append_nil]
      · rw [if_neg htail, List.append_nil]
    · intro h s y
      rw [show (breakingUpdate st (effScope c) c).tracker = st.tracker from
        breakingUpdate_tracker st (effScope c) c]
      rw [routedNotes_append]
      by_cases htail : alookup mapping c.code = some h ∧ effScope c = s
      · obtain rfl : h = heading := Option.some.inj (htail.1.symm.trans hmap)
        obtain rfl : s = effScope c := htail.2.symm
        rw [if_pos htail]
        rw [seenOf_eq_of_alookup st.tracker _ (effScope c) td2 htd, hsn]
        simp only [Option.getD_some, List.map_append, List.mem_append, List.map_cons,
          List.map_nil, List.mem_singleton]
        constructor
        · intro hy
          exact Or.inl ((hseenTarget y).mp hy)
        · rintro (hy | rfl)
          · exact (hseenTarget y).mpr hy
          · exact hmem
      · rw [if_neg htail, List.append_nil]
        exact hseen h s y
  · -- fresh note: append to the bucket and record the lowercase form
    have hhd' : alookup st.sections heading = some hd2 := by
      rw [← breakingUpdate_sections st (effScope c) c]
      exact hhd
    have hneO : heading ≠ OTHER_SECTION_HEADING := by
      intro he
      rw [he, hother] at hhd'
      exact absurd hhd' (by simp)
    have hneU : heading ≠ UNCATEGORISED_SECTION_HEADING := by
      intro he
      rw [he, huncat] at hhd'
      exact absurd hhd' (by simp)
    have hbucket : bucket = dedupByLower (routedNotes mapping heading (effScope c) processed) := by
      rw [← hbuckets heading (effScope c),
        bucketOf_eq_of_alookup st.sections heading (effScope c) hd2 hhd', hbk]
      rfl
    have hnotin : lowerStr (renderNote c) ∉
        (routedNotes mapping heading (effScope c) processed).map lowerStr := by
      intro hl
      exact hmem ((hseenTarget _).mpr hl)
    refine ⟨?_, ?_, ?_, ?_, ?_⟩
    · show alookup (aset (breakingUpdate st (effScope c) c).sections heading
        (aset hd2 (effScope c) (bucket ++ [renderNote c]))) OTHER_SECTION_HEADING = none
      rw [alookup_aset, if_neg hneO, breakingUpdate_sections]
      exact hother
    · show alookup (aset (breakingUpdate st (effScope c) c).sections heading
        (aset hd2 (effScope c) (bucket ++ [renderNote c]))) UNCATEGORISED_SECTION_HEADING = none
      rw [alookup_aset, if_neg hneU, breakingUpdate_sections]
      exact huncat
    · show (breakingUpdate st (effScope c) c).count = countBreaking (processed ++ [c])
      rw [breakingUpdate_count, hcount, countBreaking_append]
    · intro h s
      show bucketOf (aset (breakingUpdate st (effScope c) c).sections heading
        (aset hd2 (effScope c) (bucket ++ [renderNote c]))) h s =
        dedupByLower (routedNotes mapping h s (processed ++ [c]))
      rw [bucketOf_aset, breakingUpdate_sections, routedNotes_append]
      by_cases hh : heading = h
      · subst hh
        rw [if_pos rfl, alookup_aset]
        by_cases hss : effScope c = s
        · subst hss
          rw [if_pos rfl, if_pos ⟨hmap, rfl⟩, dedupByLower_append, if_neg hnotin,
            Option.getD_some, hbucket]
        · rw [if_neg hss, if_neg (fun hand => hss hand.2),
            ← bucketOf_eq_of_alookup st.sections heading s hd2 hhd', hbuckets heading s,
            List.append_nil]
      · rw [if_neg hh, if_neg (fun hand => hh (Option.some.inj (hmap.symm.trans hand.1))),
          List.append_nil]
        exact hbuckets h s
    · intro h s y
      show y ∈ seenOf (aset (breakingUpdate st (effScope c) c).tracker heading
          (aset td2 (effScope c) (seen ++ [lowerStr (renderNote c)]))) h s ↔
        y ∈ (routedNotes mapping h s (processed ++ [c])).map lowerStr
      rw [seenOf_aset, breakingUpdate_tracker, routedNotes_append]
      by_cases hh : heading = h
      · subst hh
        rw [if_pos rfl, alookup_aset]
        by_cases hss : effScope c = s
        · subst hss
          rw [if_pos rfl, if_pos ⟨hmap, rfl⟩]
          simp only [Option.getD_some, List.map_append, List.mem_append, List.map_cons,
            List.map_nil, List.mem_singleton]
          constructor
          · rintro (hy | hy)
            · exact Or.inl ((hseenTarget y).mp hy)
            · exact Or.inr hy
          · rintro (hy | rfl)
            · exact Or.inl ((hseenTarget y).mpr hy)
            · exact Or.inr (by simp)
        · rw [if_neg hss, if_neg (fun hand => hss hand.2),
            ← seenOf_eq_of_alookup st.tracker heading s td2 htd, List.append_nil]
          exact hseen heading s y
      · rw [if_neg hh, if_neg (fun hand => hh (Option.some.inj (hmap.symm.trans hand.1))),
          List.append_nil]
        exact hseen h s y

/-- Invariant step for one parsed commit: under the invariant, a successful
`processParsed` extends the invariant by that commit (with the Other heading
absent, every KeyError diversion would have aborted the run instead). -/
theorem processParsed_inv (mapping : List (String × String))
    (processed : List ParsedCommit) (st st' : CatState) (c : ParsedCommit)
    (hinv : CatInv mapping processed st)
    (hok : processParsed mapping st c = Except.ok st') :
    CatInv mapping (processed ++ [c]) st' := by
  obtain ⟨hother, huncat, hcount, hbuckets, hseen⟩ := hinv
  unfold processParsed at hok
  split at hok
  · rw [otherBranch_error st c.header hother] at hok
    exact absurd hok (by simp)
  · rename_i heading hmap
    split at hok
    · rw [otherBranch_error st c.header hother] at hok
      exact absurd hok (by simp)
    · rename_i hd hsec
      have hneO : heading ≠ OTHER_SECTION_HEADING := by
        intro he
        rw [he, hother] at hsec
        exact absurd hsec (by simp)
      have hneU : heading ≠ UNCATEGORISED_SECTION_HEADING := by
        intro he
        rw [he, huncat] at hsec
        exact absurd hsec (by simp)
      split at hok
      · rename_i hmiss
        have hmiss' : alookup hd (effScope c) = none :=
          Option.isNone_iff_eq_none.mp hmiss
        have hroutedNil : routedNotes mapping heading (effScope c) processed = [] := by
          apply dedupByLower_eq_nil
          rw [← hbuckets heading (effScope c),
            bucketOf_eq_of_alookup st.sections heading (effScope c) hd hsec, hmiss']
          rfl
        split at hok
        · rename_i htrn
          rw [otherBranch_error _ c.header ?_] at hok
          · exact absurd hok (by simp)
          · show alookup (aset st.sections heading (aset hd (effScope c) []))
              OTHER_SECTION_HEADING = none
            rw [alookup_aset, if_neg hneO]
            exact hother
        · rename_i td htr
          refine processParsedRest_inv mapping processed _ st' c heading hmap
            ?_ ?_ ?_ ?_ ?_ hok
          · show alookup (aset st.sections heading (aset hd (effScope c) []))
              OTHER_SECTION_HEADING = none
            rw [alookup_aset, if_neg hneO]
            exact hother
          · show alookup (aset st.sections heading (aset hd (effScope c) []))
              UNCATEGORISED_SECTION_HEADING = none
            rw [alookup_aset, if_neg hneU]
            exact huncat
          · exact hcount
          · intro h s
            show bucketOf (aset st.sections heading (aset hd (effScope c) [])) h s =
              dedupByLower (routedNotes mapping h s processed)
            rw [bucketOf_aset]
            by_cases hh : heading = h
            · subst hh
              rw [if_pos rfl, alookup_aset]
              by_cases hss : effScope c = s
              · subst hss
                rw [if_pos rfl, hroutedNil]
                rfl
              · rw [if_neg hss,
                  ← bucketOf_eq_of_alookup st.sections heading s hd hsec]
                exact hbuckets heading s
            · rw [if_neg hh]
              exact hbuckets h s
          · intro h s y
            show y ∈ seenOf (aset st.tracker heading (aset td (effScope c) [])) h s ↔
              y ∈ (routedNotes mapping h s processed).map lowerStr
            rw [seenOf_aset]
            by_cases hh : heading = h
            · subst hh
              rw [if_pos rfl, alookup_aset]
              by_cases hss : effScope c = s
              · subst hss
                rw [if_pos rfl, hroutedNil]
                simp
              · rw [if_neg hss,
                  ← seenOf_eq_of_alookup st.tracker heading s td htr]
                exact hseen heading s y
            · rw [if_neg hh]
              exact hseen h s y
      · exact processParsedRest_inv mapping processed st st' c heading hmap
          hother huncat hcount hbuckets hseen hok

/-- Folding the invariant over a whole commit list. -/
theorem foldlM_processParsed_inv (mapping : List (String × String)) :
    ∀ (l done : List ParsedCommit) (st st' : CatState),
      CatInv mapping done st →
      List.foldlM (processParsed mapping) st l = Except.ok st' →
      CatInv mapping (done ++ l) st' := by
  intro l
  induction l with
  | nil =>
    intro done st st' hinv hok
    simp only [List.foldlM_nil] at hok
    obtain rfl : st = st' := by
      simpa [pure, Except.pure] using hok
    simpa using hinv
  | cons c cs ih =>
    intro done st st' hinv hok
    rw [List.foldlM_cons] at hok
    cases hp : processParsed mapping st c with
    | error e =>
      rw [hp] at hok
      simp [Bind.bind, Except.bind] at hok
    | ok st1 =>
      rw [hp] at hok
      simp only [Bind.bind, Except.bind] at hok
      have hinv1 := processParsed_inv mapping done st st1 c hinv hp
      have := ih (done ++ [c]) st1 st' hinv1 hok
      simpa [List.append_assoc] using this

/-- Main invariant of a successful categorisation run, for any mapping whose
initialised heading dict lacks the Other and Uncategorised headings (the
default mapping is such a mapping): the count entry records exactly the
number of breaking-change commits, and every bucket is the case-insensitive
first-occurrence deduplication of the notes routed to it in encounter
order. -/
theorem categorise_inv (mapping : List (String × String))
    (parsed : List ParsedCommit) (unparsed : List String)
    (store : CategorisedStore) (upg : List String)
    (hO : alookup (initSections mapping) OTHER_SECTION_HEADING = none)
    (hU : alookup (initSections mapping) UNCATEGORISED_SECTION_HEADING = none)
    (hok : categoriseCommitMessages mapping parsed unparsed = Except.ok (store, upg)) :
    store.count = some (countBreaking parsed) ∧
    ∀ heading scope, bucketOf store.sections heading scope =
      dedupByLower (routedNotes mapping heading scope parsed) := by
  unfold categoriseCommitMessages at hok
  simp only [Bind.bind] at hok
  cases hf : List.foldlM (processParsed mapping)
      { sections := initSections mapping, tracker := initTracker mapping,
        count := 0, upgrades := [] } parsed with
  | error e =>
    rw [hf] at hok
    simp [Except.bind] at hok
  | ok st =>
    rw [hf] at hok
    simp only [Except.bind] at hok
    have hinv0 : CatInv mapping []
        { sections := initSections mapping, tracker := initTracker mapping,
          count := 0, upgrades := [] } := by
      refine ⟨hO, hU, rfl, ?_, ?_⟩
      · intro h s
        show bucketOf (initSections mapping) h s =
          dedupByLower (routedNotes mapping h s [])
        rw [bucketOf_initSections]
        rfl
      · intro h s y
        show y ∈ seenOf (initTracker mapping) h s ↔
          y ∈ (routedNotes mapping h s []).map lowerStr
        rw [seenOf_initTracker]
        simp [routedNotes]
    have hinv := foldlM_processParsed_inv mapping parsed []
      { sections := initSections mapping, tracker := initTracker mapping,
        count := 0, upgrades := [] } st hinv0 hf
    rw [List.nil_append] at hinv
    obtain ⟨hOf, hUf, hcountf, hbucketsf, hseenf⟩ := hinv
    rw [uncatPhase_of_absent st unparsed hUf] at hok
    simp only [pure, Except.pure, Except.ok.injEq] at hok
    have hstore : store = { sections := st.sections, count := some st.count } :=
      (congrArg Prod.fst hok).symm
    rw [hstore]
    constructor
    · show some st.count = some (countBreaking parsed)
      rw [hcountf]
    · intro heading scope
      show bucketOf st.sections heading scope =
        dedupByLower (routedNotes mapping heading scope parsed)
      exact hbucketsf heading scope

/-- C6: within each (heading, scope) bucket of a successful categorisation
run, the recorded notes are exactly the case-insensitive first-occurrence
deduplication of the rendered notes routed to that bucket: a note whose
lowercase form was already seen in the bucket is not appended, the
first-encountered casing is kept, and the retained notes preserve their
first-seen order. -/
theorem bucket_dedup_case_insensitive (mapping : List (String × String))
    (parsed : List ParsedCommit) (unparsed : List String)
    (store : CategorisedStore) (upg : List String) (heading scope : String)
    (hO : alookup (initSections mapping) OTHER_SECTION_HEADING = none)
    (hU : alookup (initSections mapping) UNCATEGORISED_SECTION_HEADING = none)
    (hok : categoriseCommitMessages mapping parsed unparsed = Except.ok (store, upg)) :
    bucketOf store.sections heading scope =
      dedupByLower (routedNotes mapping heading scope parsed) :=
  (categorise_inv mapping parsed unparsed store upg hO hU hok).2 heading scope

/-- Witness for C6: two notes differing only in case keep the first casing
and drop the second, preserving order. -/
theorem bucket_dedup_case_insensitive_witness :
    bucketOf [("## Features", [("Miscellaneous", ["Fix Thing", "Other note"])])]
        "## Features" "Miscellaneous" =
      dedupByLower (routedNotes demoMapping "## Features" "Miscellaneous" demoDedupCommits) ∧
    dedupByLower (routedNotes demoMapping "## Features" "Miscellaneous" demoDedupCommits) =
      ["Fix Thing", "Other note"] :=
  ⟨bucket_dedup_case_insensitive demoMapping demoDedupCommits []
      { sections := [("## Features", [("Miscellaneous", ["Fix Thing", "Other note"])])],
        count := some 0 }
      [] "## Features" "Miscellaneous" rfl rfl rfl,
   rfl⟩

/-- Appending the empty string is the identity. -/
theorem str_append_empty (s : String) : s ++ "" = s :=
  String.ext (by simp [String.data_append])

/-- Prepending the empty string is the identity. -/
theorem str_empty_append (s : String) : "" ++ s = s :=
  String.ext (by simp [String.data_append])

/-- A left fold whose step only ever appends text to the accumulator can be
split off its initial value. -/
theorem foldl_strAppend_of_shape (f : String → α → String)
    (hf : ∀ acc x, f acc x = acc ++ f "" x) :
    ∀ (l : List α) (init : String), l.foldl f init = init ++ l.foldl f "" := by
  intro l
  induction l with
  | nil => intro init; simp [str_append_empty]
  | cons x xs ih =>
    intro init
    simp only [List.foldl_cons]
    rw [ih (f init x), ih (f "" x), hf init x, str_append_assoc]

/-- The regular-headings step only appends to the accumulator. -/
theorem contentsSubsectionStep_shape (acc : String)
    (p : String × List (String × List String)) :
    contentsSubsectionStep acc p = acc ++ contentsSubsectionStep "" p := by
  unfold contentsSubsectionStep
  split
  · rw [str_append_empty]
  · rw [str_empty_append]

/-- The special-headings step only appends to the accumulator. -/
theorem contentsSpecialStep_shape (sections : Sections) (acc h : String) :
    contentsSpecialStep sections acc h = acc ++ contentsSpecialStep sections "" h := by
  unfold contentsSpecialStep
  split
  · rw [str_empty_append]
  · rw [str_append_empty]

/-- The contents section decomposes around the breaking-change warning: the
tickets block comes first, then the warning (empty exactly when the count is
zero), then the rendered sections. -/
theorem createContentsSection_warning_decomp (listItemSymbol : String)
    (sections : Sections) (n : Nat) :
    ∃ pre post, createContentsSection listItemSymbol sections n =
      pre ++ (if n = 0 then "" else createBreakingChangeWarning n) ++ post := by
  refine ⟨contentsTicketsPart listItemSymbol sections,
    sections.foldl contentsSubsectionStep "" ++
      [OTHER_SECTION_HEADING, UNCATEGORISED_SECTION_HEADING].foldl
        (contentsSpecialStep sections) "", ?_⟩
  unfold createContentsSection
  rw [foldl_strAppend_of_shape (contentsSpecialStep sections)
      (contentsSpecialStep_shape sections),
    foldl_strAppend_of_shape contentsSubsectionStep contentsSubsectionStep_shape]
  have hs2 : (if n ≠ 0 then
        contentsTicketsPart listItemSymbol sections ++ createBreakingChangeWarning n
      else contentsTicketsPart listItemSymbol sections) =
      contentsTicketsPart listItemSymbol sections ++
        (if n = 0 then "" else createBreakingChangeWarning n) := by
    by_cases hn : n = 0
    · simp [hn, str_append_empty]
    · simp [hn]
  rw [hs2]
  simp [str_append_assoc]

/-- C7: a successful categorisation run counts exactly the parsed commits
whose bodies contain a breaking-change marker; the built release notes
contain the warning sentence for that count — absent when the count is zero
— and the warning uses the singular phrasing exactly at one breaking change
and the plural phrasing with the count otherwise. -/
theorem breaking_change_count_correct (mapping : List (String × String))
    (listItemSymbol : String) (parsed : List ParsedCommit)
    (unparsed : List String) (store : CategorisedStore) (upg : List String)
    (hO : alookup (initSections mapping) OTHER_SECTION_HEADING = none)
    (hU : alookup (initSections mapping) UNCATEGORISED_SECTION_HEADING = none)
    (hok : categoriseCommitMessages mapping parsed unparsed = Except.ok (store, upg)) :
    store.count = some (countBreaking parsed) ∧
    (∃ pre post, buildReleaseNotes listItemSymbol store upg =
      Except.ok (pre ++ (if countBreaking parsed = 0 then ""
          else createBreakingChangeWarning (countBreaking parsed)) ++ post,
        { store with count := none })) ∧
    createBreakingChangeWarning 1 = "**IMPORTANT:** There is 1 breaking change.\n\n" ∧
    (∀ m, m ≠ 1 → createBreakingChangeWarning m =
      "**IMPORTANT:** There are " ++ toString m ++ " breaking changes.\n\n") := by
  obtain ⟨hcnt, hbkts⟩ := categorise_inv mapping parsed unparsed store upg hO hU hok
  refine ⟨hcnt, ?_, rfl, ?_⟩
  · obtain ⟨pre0, post0, hdecomp⟩ := createContentsSection_warning_decomp
      listItemSymbol store.sections (countBreaking parsed)
    obtain ⟨secs, cnt⟩ := store
    obtain rfl : cnt = some (countBreaking parsed) := hcnt
    refine ⟨AUTO_GENERATION_START_INDICATOR ++ "\n" ++ pre0,
      post0 ++ (if countBreaking parsed > 0 then
        "---\n" ++ createBreakingChangeUpgradeSection upg else "") ++
        AUTO_GENERATION_END_INDICATOR, ?_⟩
    have hbuild : buildReleaseNotes listItemSymbol
        { sections := secs, count := some (countBreaking parsed) } upg =
        Except.ok (AUTO_GENERATION_START_INDICATOR ++ "\n" ++
            createContentsSection listItemSymbol secs (countBreaking parsed) ++
            (if countBreaking parsed > 0 then
              "---\n" ++ createBreakingChangeUpgradeSection upg else "") ++
            AUTO_GENERATION_END_INDICATOR,
          { sections := secs, count := none }) := rfl
    rw [hbuild]
    have hsecs : createContentsSection listItemSymbol secs (countBreaking parsed) =
        pre0 ++ (if countBreaking parsed = 0 then ""
          else createBreakingChangeWarning (countBreaking parsed)) ++ post0 :=
      hdecomp
    rw [hsecs]
    congr 1
    congr 1
    simp [str_append_assoc]
  · intro m hm
    unfold createBreakingChangeWarning
    rw [if_neg hm]

/-- Witness for C7: one breaking-change commit gives count one, the singular
warning inside the built notes, and the plural phrasing at two. -/
theorem breaking_change_count_correct_witness :
    demoBreakingStore.count = some (countBreaking demoBreakingCommits) ∧
    (∃ pre post, buildReleaseNotes "-" demoBreakingStore demoBreakingUpgrades =
      Except.ok (pre ++ (if countBreaking demoBreakingCommits = 0 then ""
          else createBreakingChangeWarning (countBreaking demoBreakingCommits)) ++ post,
        { demoBreakingStore with count := none })) ∧
    createBreakingChangeWarning 1 = "**IMPORTANT:** There is 1 breaking change.\n\n" ∧
    createBreakingChangeWarning 2 = "**IMPORTANT:** There are 2 breaking changes.\n\n" := by
  have h := breaking_change_count_correct demoMapping "-" demoBreakingCommits []
    demoBreakingStore demoBreakingUpgrades rfl rfl rfl
  exact ⟨h.1, h.2.1, h.2.2.1, h.2.2.2 2 (by decide)⟩
